import Mathlib

/-!
Verification development for the simulation-control core described by the
repository specification, against `src/processors/interface/ripesprocessor.h`.

The header is interface-only: it declares `StageInfo`, the feature and
finalize-reason bitmasks, the signal and callback surface, and pure-virtual
(or default-empty) operations `clockProcessor`, `reverseProcessor`,
`resetProcessor`, `finalize`, `stageInfo`, `getPcForStage`,
`breakpointTriggeringStages`, `setPCInitialValue` and `setMaxReverseCycles`.
The value types and bitmask constants below are translated directly from the
header; every behavioral definition is marked `Modelled from the spec:` since
the implementing code is not part of the repository sources.
-/

namespace Ripes

/-- Pipeline-stage status annotation, translated from the nested enum
`StageInfo::State` in ripesprocessor.h with members None, Stalled, Flushed,
WayHazard and Unused. -/
inductive StageInfo.State
  | None
  | Stalled
  | Flushed
  | WayHazard
  | Unused
deriving DecidableEq

/-- Snapshot of one pipeline stage, translated from `struct StageInfo` in
ripesprocessor.h: program counter, occupancy flag and status. Equality is
structural over the three fields, matching the defined equality operator. -/
structure StageInfo where
  pc : Nat
  stage_valid : Bool
  state : StageInfo.State
deriving DecidableEq

/-- Feature bit for reversible execution, from `RipesProcessor::Features`. -/
def Features.isReversible : Nat := 1

/-- Feature bit for the instruction-cache interface, from
`RipesProcessor::Features`. -/
def Features.hasICacheInterface : Nat := 2

/-- Feature bit for the data-cache interface, from
`RipesProcessor::Features`. -/
def Features.hasDCacheInterface : Nat := 4

/-- Finalize-reason bit for leaving the executable region, from
`RipesProcessor::FinalizeReason`. -/
def FinalizeReason.exitedExecutableRegion : Nat := 1

/-- Finalize-reason bit for an exit system call, from
`RipesProcessor::FinalizeReason`. -/
def FinalizeReason.exitSyscall : Nat := 2

/-- Modelled from the spec: the states of the FinalizationTracker drain state
machine of section 4.4. The implementation behind the pure-virtual
`finalize` and `finished` entries of the header is not under src. -/
inductive FinState
  | Running
  | Draining
  | Finished
deriving DecidableEq

/-- Modelled from the spec: the FinalizationTracker of section 3, holding the
drain state and the accumulated finalize-reason bitmask. -/
structure FinalizationTracker where
  state : FinState
  reason : Nat
deriving DecidableEq

/-- Modelled from the spec: the initial, not-finalizing tracker. -/
def FinalizationTracker.initial : FinalizationTracker := ⟨FinState.Running, 0⟩

/-- Modelled from the spec: the finished flag is true only in the Finished
state. -/
def FinalizationTracker.finished (t : FinalizationTracker) : Bool :=
  decide (t.state = FinState.Finished)

/-- Modelled from the spec: beginFinalize transitions Running to Draining and
accumulates the reason bitmask with bitwise or; Finished is terminal. -/
def beginFinalize (t : FinalizationTracker) (r : Nat) : FinalizationTracker :=
  match t.state with
  | FinState.Running => ⟨FinState.Draining, t.reason ||| r⟩
  | FinState.Draining => ⟨FinState.Draining, t.reason ||| r⟩
  | FinState.Finished => t

/-- Modelled from the spec: cancelFinalize returns a Draining tracker to
Running and clears the reason bitmask; in any other state it does nothing. -/
def cancelFinalize (t : FinalizationTracker) : FinalizationTracker :=
  match t.state with
  | FinState.Draining => ⟨FinState.Running, 0⟩
  | _ => t

/-- Modelled from the spec: the pipeline is drained when every stage is either
not valid or marked Unused. -/
def pipelineEmpty (track : List StageInfo) : Bool :=
  track.all fun s => !s.stage_valid || decide (s.state = StageInfo.State.Unused)

/-- Modelled from the spec: tick runs every clock; while Draining, if the
pipeline is empty of valid unfinished instructions the tracker transitions to
Finished. -/
def FinalizationTracker.tick (t : FinalizationTracker) (track : List StageInfo) :
    FinalizationTracker :=
  match t.state with
  | FinState.Draining => if pipelineEmpty track then ⟨FinState.Finished, t.reason⟩ else t
  | _ => t

/-- Modelled from the spec: the register, memory and program-counter state owned
by the external execution engine of section 6. -/
structure EngineCore where
  regs : List Nat
  mem : List (Nat × Nat)
  pc : Nat
deriving DecidableEq

/-- Modelled from the spec: one cycle of observable simulation state, and also
the per-entry snapshot stored in the HistoryLog (section 4.2, full-snapshot
representation sufficient to undo one forward clock). -/
structure SimState where
  core : EngineCore
  stageTrack : List StageInfo
  fin : FinalizationTracker
deriving DecidableEq

/-- Modelled from the spec: the external execution-engine interface of
section 6, with the stage count, the one-cycle state transition, the raw
per-stage signal bundle already collapsed to a StageInfo, and the
isExecutableAddress callback supplied by the embedding environment. -/
structure Engine where
  stageCount : Nat
  advanceOneCycle : EngineCore → EngineCore
  rawStageInfo : EngineCore → Nat → StageInfo
  isExecutableAddress : Nat → Bool

/-- Notification signals translated from the header members
`processorWasClocked`, `processorWasReversed` and `processorWasReset`. -/
inductive SignalKind
  | processorWasClocked
  | processorWasReversed
  | processorWasReset
deriving DecidableEq

/-- Signals are emitted only when `m_emitsSignals` is set, per the header doc
comment on the signal members. -/
def emitIf (b : Bool) (s : SignalKind) : List SignalKind :=
  if b then [s] else []

/-- Error taxonomy of spec section 7. -/
inductive RipesError
  | UnsupportedOperation
  | ReversalExhausted
  | OutOfRange
  | EmptyHistory
  | EngineFault
deriving DecidableEq

/-- Modelled from the spec: the ProcessorController state of section 4.3,
owning the StageTrack and FinalizationTracker (inside `sim`) and the
HistoryLog. The configuration fields `m_features` and `m_emitsSignals` are
translated from the protected members of `RipesProcessor`; `maxReverseCycles`
and `pcInitialValue` are the values configured through `setMaxReverseCycles`
and `setPCInitialValue`. The history list is kept most-recent-first. -/
structure Processor where
  m_features : Nat
  m_emitsSignals : Bool
  maxReverseCycles : Nat
  pcInitialValue : Nat
  sim : SimState
  history : List SimState
deriving DecidableEq

/-- Reversible-capability test: bit `Features.isReversible` of `m_features`. -/
def Processor.isReversible (p : Processor) : Bool :=
  decide (p.m_features &&& Features.isReversible ≠ 0)

/-- Modelled from the spec: HistoryLog record with ring-buffer discipline;
when the bound is reached the oldest (last) entry is discarded before the new
entry is appended at the front. -/
def HistoryLog.record (maxDepth : Nat) (entry : SimState) (log : List SimState) :
    List SimState :=
  (entry :: log).take maxDepth

/-- Modelled from the spec: the Controller recomputes the StageTrack for all
stages from the engine per-stage signals after each transition. -/
def recomputeStageTrack (e : Engine) (c : EngineCore) : List StageInfo :=
  (List.range e.stageCount).map (e.rawStageInfo c)

/-- Modelled from the spec: the Controller advances the FinalizationTracker
each clock. When the engine reports the fetch address (taken here to be the
post-step program counter) outside the executable region it begins
finalization; when it reports it back inside, a Draining tracker is cancelled;
afterwards the tracker ticks against the fresh StageTrack. -/
def advanceFinalization (e : Engine) (t : FinalizationTracker) (c : EngineCore)
    (track : List StageInfo) : FinalizationTracker :=
  (if e.isExecutableAddress c.pc then cancelFinalize t
   else beginFinalize t FinalizeReason.exitedExecutableRegion).tick track

/-- Modelled from the spec: clockProcessor (pure virtual in the header). Steps
the engine, recomputes the StageTrack, records the prior cycle in the
HistoryLog when the Reversible capability is declared, advances the
FinalizationTracker, and emits the clocked signal when enabled. -/
def clockProcessor (e : Engine) (p : Processor) : Processor × List SignalKind :=
  let c := e.advanceOneCycle p.sim.core
  let track := recomputeStageTrack e c
  let fin := advanceFinalization e p.sim.fin c track
  let hist := if p.isReversible then HistoryLog.record p.maxReverseCycles p.sim p.history
              else p.history
  ({ p with sim := ⟨c, track, fin⟩, history := hist },
   emitIf p.m_emitsSignals SignalKind.processorWasClocked)

/-- Result of an operation that can fail: the processor afterwards (unchanged
on failure), the reported error if any, and the emitted signals. -/
structure ReverseResult where
  proc : Processor
  error : Option RipesError
  signals : List SignalKind
deriving DecidableEq

/-- Modelled from the spec: reverseProcessor (default-empty virtual in the
header). Valid only when the Reversible capability is declared and the
HistoryLog is non-empty; otherwise it fails with UnsupportedOperation or
ReversalExhausted respectively and leaves all state unmodified. On success it
pops the most recent history entry, restores it, and emits the reversed signal
when enabled. -/
def reverseProcessor (p : Processor) : ReverseResult :=
  if p.isReversible then
    match p.history with
    | [] => ⟨p, some RipesError.ReversalExhausted, []⟩
    | s :: rest =>
      ⟨{ p with sim := s, history := rest }, none,
       emitIf p.m_emitsSignals SignalKind.processorWasReversed⟩
  else ⟨p, some RipesError.UnsupportedOperation, []⟩

/-- Modelled from the spec: the all-Unused StageTrack entry installed by
reset. -/
def unusedStage : StageInfo := ⟨0, false, StageInfo.State.Unused⟩

/-- Modelled from the spec: resetProcessor (pure virtual in the header).
Clears the HistoryLog, resets the StageTrack to all-Unused, resets the
FinalizationTracker to not-finalizing, restores the program counter to its
configured initial value, and emits the reset signal when enabled. -/
def resetProcessor (e : Engine) (p : Processor) : Processor × List SignalKind :=
  ({ p with
      sim := ⟨{ p.sim.core with pc := p.pcInitialValue },
              List.replicate e.stageCount unusedStage,
              FinalizationTracker.initial⟩,
      history := [] },
   emitIf p.m_emitsSignals SignalKind.processorWasReset)

/-- Translated from setPCInitialValue in the header: sets the program-counter
value installed on reset. -/
def setPCInitialValue (p : Processor) (a : Nat) : Processor :=
  { p with pcInitialValue := a }

/-- Modelled from the spec: setMaxReverseCycles (default-empty virtual in the
header); shrinking the bound truncates the oldest entries immediately. -/
def setMaxReverseCycles (p : Processor) (c : Nat) : Processor :=
  if p.isReversible then { p with maxReverseCycles := c, history := p.history.take c }
  else p

/-- Modelled from the spec: stateOf on the StageTrack fails with OutOfRange for
an index at or beyond the track length, never clamping. -/
def stateOf (track : List StageInfo) (i : Nat) : Except RipesError StageInfo :=
  match track[i]? with
  | some s => Except.ok s
  | none => Except.error RipesError.OutOfRange

/-- Modelled from the spec: stageInfo (pure virtual in the header) reads one
stage of the current StageTrack. -/
def stageInfo (p : Processor) (i : Nat) : Except RipesError StageInfo :=
  stateOf p.sim.stageTrack i

/-- Modelled from the spec: getPcForStage (pure virtual in the header)
projects the program counter of one stage. -/
def getPcForStage (p : Processor) (i : Nat) : Except RipesError Nat :=
  (stageInfo p i).map StageInfo.pc

/-- Modelled from the spec: breakpointTriggeringStages returns every stage
index whose current program counter equals the breakpoint address and whose
valid flag is set, in ascending stage-index order. The header only declares a
parameterless pure-virtual stub; the filtering behavior follows spec
section 4.1. -/
def breakpointTriggeringStages (track : List StageInfo) (breakpointPC : Nat) :
    List Nat :=
  (List.range track.length).filter fun i =>
    match track[i]? with
    | some s => decide (s.pc = breakpointPC) && s.stage_valid
    | none => false

/-- Iterated forward clocking, earliest clock applied first. -/
def clockN (e : Engine) : Nat → Processor → Processor
  | 0, p => p
  | n + 1, p => clockN e n (clockProcessor e p).1

/-- Sequencing of fallible reverse steps: stop at the first error. -/
def ReverseResult.andThen (r : ReverseResult) (f : Processor → ReverseResult) :
    ReverseResult :=
  match r.error with
  | none => f r.proc
  | some _ => r

/-- Iterated reversing; the last application follows the first n. -/
def reverseN : Nat → Processor → ReverseResult
  | 0, p => ⟨p, none, []⟩
  | n + 1, p => (reverseN n p).andThen reverseProcessor

/-- StageTrack length invariant: the live track and every recorded snapshot
have exactly the stage count declared by the engine configuration. -/
def trackLenInv (e : Engine) (p : Processor) : Prop :=
  p.sim.stageTrack.length = e.stageCount ∧
    ∀ s ∈ p.history, s.stageTrack.length = e.stageCount

/-- Concrete two-stage engine used in witnesses. -/
def eW : Engine :=
  ⟨2, fun c => { c with pc := c.pc + 4 },
   fun c i => ⟨c.pc + 4 * i, true, StageInfo.State.None⟩,
   fun _ => true⟩

/-- Concrete reversible processor used in witnesses. -/
def pW : Processor :=
  { m_features := 1, m_emitsSignals := true, maxReverseCycles := 3,
    pcInitialValue := 0,
    sim := ⟨⟨[1, 2], [(0, 7)], 0⟩,
            [⟨0, true, StageInfo.State.None⟩, ⟨0, false, StageInfo.State.Unused⟩],
            FinalizationTracker.initial⟩,
    history := [] }

/-- Concrete non-reversible processor used in witnesses. -/
def pNR : Processor := { pW with m_features := 0 }

/-- Concrete reversible processor with one history entry. -/
def pH : Processor := { pW with history := [pW.sim] }

/-- Concrete finished processor used in witnesses. -/
def pF : Processor :=
  { pW with sim := { pW.sim with fin := ⟨FinState.Finished, 2⟩ } }

/-- Concrete Draining tracker used in witnesses. -/
def tD : FinalizationTracker := ⟨FinState.Draining, 3⟩

/-- Concrete one-stage engine whose executable-region callback always reports
outside, used in the C5 counterexample trace. -/
def eC5 : Engine :=
  ⟨1, fun c => c, fun _ _ => ⟨0, false, StageInfo.State.Unused⟩, fun _ => false⟩

/-- Concrete Draining processor whose next clock finishes it. -/
def pC5 : Processor :=
  { m_features := 1, m_emitsSignals := true, maxReverseCycles := 4,
    pcInitialValue := 0,
    sim := ⟨⟨[], [], 0⟩, [⟨0, false, StageInfo.State.Unused⟩],
            ⟨FinState.Draining, 1⟩⟩,
    history := [] }

/-- Concrete four-stage track where only stage 2 shows a valid pc 0x1000;
stage 3 also shows 0x1000 but is not valid. -/
def sampleTrack : List StageInfo :=
  [⟨0x0FFC, true, StageInfo.State.None⟩,
   ⟨0x2000, true, StageInfo.State.None⟩,
   ⟨0x1000, true, StageInfo.State.None⟩,
   ⟨0x1000, false, StageInfo.State.Stalled⟩]

theorem clock_m_features (e : Engine) (p : Processor) :
    (clockProcessor e p).1.m_features = p.m_features := rfl

theorem clock_isReversible (e : Engine) (p : Processor) :
    (clockProcessor e p).1.isReversible = p.isReversible := rfl

theorem clock_maxReverseCycles (e : Engine) (p : Processor) :
    (clockProcessor e p).1.maxReverseCycles = p.maxReverseCycles := rfl

theorem clock_m_emitsSignals (e : Engine) (p : Processor) :
    (clockProcessor e p).1.m_emitsSignals = p.m_emitsSignals := rfl

theorem clock_pcInitialValue (e : Engine) (p : Processor) :
    (clockProcessor e p).1.pcInitialValue = p.pcInitialValue := rfl

theorem clock_history_of_reversible (e : Engine) (p : Processor)
    (h : p.isReversible = true) :
    (clockProcessor e p).1.history = (p.sim :: p.history).take p.maxReverseCycles := by
  simp [clockProcessor, HistoryLog.record, h]

theorem clockN_succ (e : Engine) (n : Nat) (p : Processor) :
    clockN e (n + 1) p = clockN e n (clockProcessor e p).1 := rfl

theorem reverseN_succ (n : Nat) (p : Processor) :
    reverseN (n + 1) p = (reverseN n p).andThen reverseProcessor := rfl

theorem andThen_of_error_none (r : ReverseResult) (f : Processor → ReverseResult)
    (h : r.error = none) : r.andThen f = f r.proc := by
  simp [ReverseResult.andThen, h]

theorem clockN_m_features (e : Engine) : ∀ (n : Nat) (p : Processor),
    (clockN e n p).m_features = p.m_features := by
  intro n
  induction n with
  | zero => intro p; rfl
  | succ k ih =>
    intro p
    calc (clockN e (k + 1) p).m_features
        = (clockN e k (clockProcessor e p).1).m_features := rfl
      _ = (clockProcessor e p).1.m_features := ih _
      _ = p.m_features := rfl

theorem clockN_isReversible (e : Engine) (n : Nat) (p : Processor) :
    (clockN e n p).isReversible = p.isReversible := by
  simp [Processor.isReversible, clockN_m_features]

theorem clockN_maxReverseCycles (e : Engine) : ∀ (n : Nat) (p : Processor),
    (clockN e n p).maxReverseCycles = p.maxReverseCycles := by
  intro n
  induction n with
  | zero => intro p; rfl
  | succ k ih =>
    intro p
    calc (clockN e (k + 1) p).maxReverseCycles
        = (clockN e k (clockProcessor e p).1).maxReverseCycles := rfl
      _ = (clockProcessor e p).1.maxReverseCycles := ih _
      _ = p.maxReverseCycles := rfl

theorem clockN_history_length (e : Engine) : ∀ (n : Nat) (p : Processor),
    p.isReversible = true → p.history.length ≤ p.maxReverseCycles →
    (clockN e n p).history.length = min p.maxReverseCycles (p.history.length + n) := by
  intro n
  induction n with
  | zero =>
    intro p _ hlen
    simpa [clockN] using (Nat.min_eq_right hlen).symm
  | succ k ih =>
    intro p hrev hlen
    have hrev1 : (clockProcessor e p).1.isReversible = true := by
      rw [clock_isReversible]; exact hrev
    have hlen1 : (clockProcessor e p).1.history.length ≤
        (clockProcessor e p).1.maxReverseCycles := by
      rw [clock_history_of_reversible e p hrev, clock_maxReverseCycles]
      simp [List.length_take]
    have h1 : (clockProcessor e p).1.history.length =
        min p.maxReverseCycles (p.history.length + 1) := by
      rw [clock_history_of_reversible e p hrev]
      simp [List.length_take]
    calc (clockN e (k + 1) p).history.length
        = (clockN e k (clockProcessor e p).1).history.length := rfl
      _ = min (clockProcessor e p).1.maxReverseCycles
            ((clockProcessor e p).1.history.length + k) := ih _ hrev1 hlen1
      _ = min p.maxReverseCycles (p.history.length + (k + 1)) := by
          rw [clock_maxReverseCycles, h1]; omega

theorem reverseN_drop : ∀ (n : Nat) (p : Processor),
    p.isReversible = true → n ≤ p.history.length →
    (reverseN n p).error = none ∧
    (reverseN n p).proc.history = p.history.drop n ∧
    (reverseN n p).proc.m_features = p.m_features := by
  intro n
  induction n with
  | zero => intro p _ _; exact ⟨rfl, rfl, rfl⟩
  | succ k ih =>
    intro p hrev hn
    obtain ⟨he, hh, hf⟩ := ih p hrev (by omega)
    have hrev2 : (reverseN k p).proc.isReversible = true := by
      simp only [Processor.isReversible, hf]
      exact hrev
    have hlen : 0 < (reverseN k p).proc.history.length := by
      rw [hh, List.length_drop]; omega
    obtain ⟨a, t, hcons⟩ := List.exists_cons_of_ne_nil (List.ne_nil_of_length_pos hlen)
    have ht : t = p.history.drop (k + 1) := by
      have h3 : (p.history.drop k).tail = t := by
        rw [← hh, hcons]
        rfl
      rw [List.tail_drop] at h3
      exact h3.symm
    rw [reverseN_succ, andThen_of_error_none _ _ he]
    simp [reverseProcessor, hrev2, hcons, ht, hf]

theorem roundtrip_step (e : Engine) (k : Nat) (p : Processor)
    (hrev : p.isReversible = true) (hk : k + 1 ≤ p.maxReverseCycles)
    (ihp : (reverseN k (clockN e k (clockProcessor e p).1)).error = none ∧
      (reverseN k (clockN e k (clockProcessor e p).1)).proc =
        { (clockProcessor e p).1 with
            history := (clockProcessor e p).1.history.take (p.maxReverseCycles - k) }) :
    (reverseN (k + 1) (clockN e (k + 1) p)).error = none ∧
    (reverseN (k + 1) (clockN e (k + 1) p)).proc =
      { p with history := p.history.take (p.maxReverseCycles - (k + 1)) } := by
  obtain ⟨he, hp⟩ := ihp
  have hstep : reverseN (k + 1) (clockN e (k + 1) p)
      = reverseProcessor (reverseN k (clockN e k (clockProcessor e p).1)).proc := by
    rw [clockN_succ, reverseN_succ, andThen_of_error_none _ _ he]
  have hhist : (clockProcessor e p).1.history.take (p.maxReverseCycles - k) =
      p.sim :: p.history.take (p.maxReverseCycles - (k + 1)) := by
    rw [clock_history_of_reversible e p hrev, List.take_take,
      min_eq_left (Nat.sub_le _ _)]
    have hmk : p.maxReverseCycles - k = (p.maxReverseCycles - (k + 1)) + 1 := by omega
    rw [hmk, List.take_succ_cons]
  have hrev3 : p.m_features &&& Features.isReversible ≠ 0 := by
    simpa [Processor.isReversible] using hrev
  rw [hstep, hp]
  refine ⟨?_, ?_⟩ <;>
    simp [reverseProcessor, Processor.isReversible, hrev3, hhist, clock_m_features,
      clock_m_emitsSignals, clock_maxReverseCycles, clock_pcInitialValue]

theorem roundtrip_aux (e : Engine) : ∀ (N : Nat) (p : Processor),
    p.isReversible = true → N ≤ p.maxReverseCycles →
    p.history.length ≤ p.maxReverseCycles →
    (reverseN N (clockN e N p)).error = none ∧
    (reverseN N (clockN e N p)).proc =
      { p with history := p.history.take (p.maxReverseCycles - N) } := by
  intro N
  induction N with
  | zero =>
    intro p _ _ hlen
    refine ⟨rfl, ?_⟩
    show p = _
    rw [Nat.sub_zero, List.take_of_length_le hlen]
  | succ k ih =>
    intro p hrev hk hlen
    have hrev1 : (clockProcessor e p).1.isReversible = true := by
      rw [clock_isReversible]; exact hrev
    have hlen1 : (clockProcessor e p).1.history.length ≤
        (clockProcessor e p).1.maxReverseCycles := by
      rw [clock_history_of_reversible e p hrev, clock_maxReverseCycles]
      simp [List.length_take]
    exact roundtrip_step e k p hrev hk
      (ih (clockProcessor e p).1 hrev1 (by rw [clock_maxReverseCycles]; omega) hlen1)

theorem advanceFinalization_finished (e : Engine) (t : FinalizationTracker)
    (c : EngineCore) (track : List StageInfo) (h : t.finished = true) :
    advanceFinalization e t c track = t := by
  have hst : t.state = FinState.Finished := by
    simpa [FinalizationTracker.finished] using h
  cases hex : e.isExecutableAddress c.pc <;>
    simp [advanceFinalization, cancelFinalize, beginFinalize,
      FinalizationTracker.tick, hex, hst]

theorem clock_finished (e : Engine) (p : Processor) (h : p.sim.fin.finished = true) :
    (clockProcessor e p).1.sim.fin = p.sim.fin := by
  show advanceFinalization e p.sim.fin (e.advanceOneCycle p.sim.core)
    (recomputeStageTrack e (e.advanceOneCycle p.sim.core)) = p.sim.fin
  exact advanceFinalization_finished e p.sim.fin _ _ h

theorem clockN_finished (e : Engine) : ∀ (n : Nat) (p : Processor),
    p.sim.fin.finished = true → (clockN e n p).sim.fin.finished = true := by
  intro n
  induction n with
  | zero => intro p h; exact h
  | succ k ih =>
    intro p h
    rw [clockN_succ]
    apply ih
    show ((clockProcessor e p).1.sim.fin).finished = true
    rw [clock_finished e p h]
    exact h

/-- Claim C1: for every processor declaring the Reversible capability and every
N with N not exceeding maxReverseCycles, N forward clocks followed by N
reverses all succeed and leave the StageTrack, register values, memory
contents, program counter and FinalizationTracker state bit-identical to
their values before the N forward clocks. -/
theorem C1_reversible_roundtrip (e : Engine) (p : Processor) (N : Nat)
    (hrev : p.isReversible = true) (hN : N ≤ p.maxReverseCycles) :
    (reverseN N (clockN e N p)).error = none ∧
    (reverseN N (clockN e N p)).proc.sim.stageTrack = p.sim.stageTrack ∧
    (reverseN N (clockN e N p)).proc.sim.core.regs = p.sim.core.regs ∧
    (reverseN N (clockN e N p)).proc.sim.core.mem = p.sim.core.mem ∧
    (reverseN N (clockN e N p)).proc.sim.core.pc = p.sim.core.pc ∧
    (reverseN N (clockN e N p)).proc.sim.fin = p.sim.fin := by
  cases N with
  | zero => exact ⟨rfl, rfl, rfl, rfl, rfl, rfl⟩
  | succ k =>
    have hrev1 : (clockProcessor e p).1.isReversible = true := by
      rw [clock_isReversible]; exact hrev
    have hlen1 : (clockProcessor e p).1.history.length ≤
        (clockProcessor e p).1.maxReverseCycles := by
      rw [clock_history_of_reversible e p hrev, clock_maxReverseCycles]
      simp [List.length_take]
    obtain ⟨he, hp2⟩ := roundtrip_step e k p hrev hN
      (roundtrip_aux e k (clockProcessor e p).1 hrev1
        (by rw [clock_maxReverseCycles]; omega) hlen1)
    refine ⟨he, ?_, ?_, ?_, ?_, ?_⟩ <;> rw [hp2]

/-- Witness for C1 at the concrete engine eW, processor pW and N = 2. -/
theorem C1_reversible_roundtrip_witness :
    (reverseN 2 (clockN eW 2 pW)).error = none ∧
    (reverseN 2 (clockN eW 2 pW)).proc.sim.stageTrack = pW.sim.stageTrack ∧
    (reverseN 2 (clockN eW 2 pW)).proc.sim.core.regs = pW.sim.core.regs ∧
    (reverseN 2 (clockN eW 2 pW)).proc.sim.core.mem = pW.sim.core.mem ∧
    (reverseN 2 (clockN eW 2 pW)).proc.sim.core.pc = pW.sim.core.pc ∧
    (reverseN 2 (clockN eW 2 pW)).proc.sim.fin = pW.sim.fin :=
  C1_reversible_roundtrip eW pW 2 (by decide) (by decide)

/-- Claim C2: breakpointTriggeringStages returns exactly the stage indices
whose current program counter equals the breakpoint address with the valid
flag set, listed in ascending stage-index order; on the sample track where
only stage 2 validly holds pc 0x1000 it returns exactly the index 2. -/
theorem C2_breakpoint_stages (track : List StageInfo) (breakpointPC : Nat) :
    (∀ i : Nat, i ∈ breakpointTriggeringStages track breakpointPC ↔
      ∃ s, track[i]? = some s ∧ s.pc = breakpointPC ∧ s.stage_valid = true) ∧
    (breakpointTriggeringStages track breakpointPC).Pairwise (· < ·) ∧
    breakpointTriggeringStages sampleTrack 0x1000 = [2] := by
  refine ⟨?_, ?_, by decide⟩
  · intro i
    constructor
    · intro hmem
      simp only [breakpointTriggeringStages, List.mem_filter, List.mem_range] at hmem
      obtain ⟨hi, hcond⟩ := hmem
      cases htr : track[i]? with
      | none => rw [htr] at hcond; simp at hcond
      | some s =>
        rw [htr] at hcond
        simp at hcond
        exact ⟨s, rfl, hcond.1, hcond.2⟩
    · rintro ⟨s, hs, hpc, hval⟩
      have hi : i < track.length := by
        by_contra hge
        rw [List.getElem?_eq_none (by omega)] at hs
        cases hs
      simp only [breakpointTriggeringStages, List.mem_filter, List.mem_range]
      refine ⟨hi, ?_⟩
      rw [hs]
      simp [hpc, hval]
  · exact List.Pairwise.sublist (List.filter_sublist _) (List.pairwise_lt_range _)

/-- Claim C3: after any clock of a reversible processor the HistoryLog holds
at most maxReverseCycles entries; once the bound is reached the oldest entry
is evicted before the new entry is appended; and after more than
maxReverseCycles forward clocks, maxReverseCycles reverses in a row all
succeed while the next reverse fails with ReversalExhausted. -/
theorem C3_history_bound (e : Engine) (p : Processor) (M : Nat)
    (hrev : p.isReversible = true) (hM : p.maxReverseCycles < M) :
    (∀ q : Processor, q.isReversible = true →
      (clockProcessor e q).1.history.length ≤ q.maxReverseCycles) ∧
    (∀ q : Processor, q.isReversible = true → 1 ≤ q.maxReverseCycles →
      q.history.length = q.maxReverseCycles →
      (clockProcessor e q).1.history = q.sim :: q.history.dropLast) ∧
    (reverseN p.maxReverseCycles (clockN e M p)).error = none ∧
    (reverseProcessor (reverseN p.maxReverseCycles (clockN e M p)).proc).error =
      some RipesError.ReversalExhausted := by
  have hbound : ∀ q : Processor, q.isReversible = true →
      (clockProcessor e q).1.history.length ≤ q.maxReverseCycles := by
    intro q hq
    rw [clock_history_of_reversible e q hq]
    simp [List.length_take]
  have hevict : ∀ q : Processor, q.isReversible = true → 1 ≤ q.maxReverseCycles →
      q.history.length = q.maxReverseCycles →
      (clockProcessor e q).1.history = q.sim :: q.history.dropLast := by
    intro q hq h1 hlen
    rw [clock_history_of_reversible e q hq]
    obtain ⟨m, hm⟩ : ∃ m, q.maxReverseCycles = m + 1 := ⟨q.maxReverseCycles - 1, by omega⟩
    rw [hm, List.take_succ_cons]
    congr 1
    rw [List.dropLast_eq_take, hlen, hm]
    rfl
  refine ⟨hbound, hevict, ?_⟩
  have hrevq : (clockN e M p).isReversible = true := by
    rw [clockN_isReversible]; exact hrev
  obtain ⟨M0, rfl⟩ : ∃ M0, M = M0 + 1 := ⟨M - 1, by omega⟩
  have hrev1 : (clockProcessor e p).1.isReversible = true := by
    rw [clock_isReversible]; exact hrev
  have hlen1 : (clockProcessor e p).1.history.length ≤
      (clockProcessor e p).1.maxReverseCycles := by
    rw [clock_history_of_reversible e p hrev, clock_maxReverseCycles]
    simp [List.length_take]
  have hlenM : (clockN e (M0 + 1) p).history.length = p.maxReverseCycles := by
    rw [clockN_succ, clockN_history_length e M0 (clockProcessor e p).1 hrev1 hlen1,
      clock_maxReverseCycles]
    have h2 : p.maxReverseCycles ≤ M0 := by omega
    omega
  obtain ⟨he2, hh2, hf2⟩ :=
    reverseN_drop p.maxReverseCycles (clockN e (M0 + 1) p) hrevq (by rw [hlenM])
  refine ⟨he2, ?_⟩
  have hnil : (reverseN p.maxReverseCycles (clockN e (M0 + 1) p)).proc.history = [] := by
    rw [hh2]
    exact List.drop_eq_nil_of_le (le_of_eq hlenM)
  have hfm : (reverseN p.maxReverseCycles (clockN e (M0 + 1) p)).proc.m_features =
      p.m_features := by
    rw [hf2, clockN_m_features]
  have hrevr : (reverseN p.maxReverseCycles (clockN e (M0 + 1) p)).proc.isReversible =
      true := by
    simp only [Processor.isReversible, hfm]
    exact hrev
  simp [reverseProcessor, hrevr, hnil]

/-- Witness for C3 at the concrete engine eW, processor pW (bound 3) and
M = 5 forward clocks. -/
theorem C3_history_bound_witness :
    (reverseN pW.maxReverseCycles (clockN eW 5 pW)).error = none ∧
    (reverseProcessor (reverseN pW.maxReverseCycles (clockN eW 5 pW)).proc).error =
      some RipesError.ReversalExhausted :=
  (C3_history_bound eW pW 5 (by decide) (by decide)).2.2

/-- Claim C4: reverse succeeds exactly when the Reversible capability is
declared and the HistoryLog is non-empty; without the capability it fails with
UnsupportedOperation, on an empty log it fails with ReversalExhausted, and in
either failure case all observable simulation state is left unmodified. -/
theorem C4_reverse_validity (p : Processor) :
    (p.isReversible = false →
      reverseProcessor p = ⟨p, some RipesError.UnsupportedOperation, []⟩) ∧
    (p.isReversible = true → p.history = [] →
      reverseProcessor p = ⟨p, some RipesError.ReversalExhausted, []⟩) ∧
    (∀ err : RipesError, (reverseProcessor p).error = some err →
      (reverseProcessor p).proc = p) ∧
    (p.isReversible = true → p.history ≠ [] → (reverseProcessor p).error = none) := by
  refine ⟨?_, ?_, ?_, ?_⟩
  · intro h
    simp [reverseProcessor, h]
  · intro h hh
    simp [reverseProcessor, h, hh]
  · intro err herr
    cases hrev : p.isReversible with
    | false => simp [reverseProcessor, hrev]
    | true =>
      cases hh : p.history with
      | nil => simp [reverseProcessor, hrev, hh]
      | cons a t => simp [reverseProcessor, hrev, hh] at herr
  · intro h hh
    cases hhist : p.history with
    | nil => exact absurd hhist hh
    | cons a t => simp [reverseProcessor, h, hhist]

/-- Witness for C4 at a non-reversible processor, a reversible processor with
empty history, and a reversible processor with one history entry. -/
theorem C4_reverse_validity_witness :
    reverseProcessor pNR = ⟨pNR, some RipesError.UnsupportedOperation, []⟩ ∧
    reverseProcessor pW = ⟨pW, some RipesError.ReversalExhausted, []⟩ ∧
    (reverseProcessor pH).error = none :=
  ⟨(C4_reverse_validity pNR).1 (by decide),
   (C4_reverse_validity pW).2.1 (by decide) rfl,
   (C4_reverse_validity pH).2.2.2 (by decide) (by decide)⟩

/-- Claim C5 as stated fails on the modelled code: in this concrete trace the
tracker finishes on a clock, yet the immediately following reverse succeeds
and restores the earlier, unfinished FinalizationTracker, so the finished flag
does not remain true across reverse. -/
theorem C5_counterexample :
    (clockProcessor eC5 pC5).1.sim.fin.finished = true ∧
    (reverseProcessor (clockProcessor eC5 pC5).1).error = none ∧
    (reverseProcessor (clockProcessor eC5 pC5).1).proc.sim.fin.finished = false := by
  decide

/-- Claim C5 amended: once the finished flag becomes true it remains true on
every subsequent clock until the next reset; reset returns the tracker to the
initial not-finalizing state; and the tracker operations beginFinalize,
cancelFinalize and tick all preserve a Finished tracker. A reverse, however,
restores the FinalizationTracker recorded in the popped history entry, as the
round-trip property requires. -/
theorem C5_finished_stable (e : Engine) (p : Processor) (n : Nat)
    (hf : p.sim.fin.finished = true) :
    (clockN e n p).sim.fin.finished = true ∧
    (resetProcessor e p).1.sim.fin = FinalizationTracker.initial ∧
    (∀ r : Nat, beginFinalize p.sim.fin r = p.sim.fin) ∧
    cancelFinalize p.sim.fin = p.sim.fin ∧
    (∀ track : List StageInfo, p.sim.fin.tick track = p.sim.fin) := by
  have hst : p.sim.fin.state = FinState.Finished := by
    simpa [FinalizationTracker.finished] using hf
  refine ⟨clockN_finished e n p hf, rfl, ?_, ?_, ?_⟩
  · intro r
    simp [beginFinalize, hst]
  · simp [cancelFinalize, hst]
  · intro track
    simp [FinalizationTracker.tick, hst]

/-- Witness for the amended C5 at the concrete engine eW, the finished
processor pF and three clocks. -/
theorem C5_finished_stable_witness :
    (clockN eW 3 pF).sim.fin.finished = true ∧
    (resetProcessor eW pF).1.sim.fin = FinalizationTracker.initial ∧
    (∀ r : Nat, beginFinalize pF.sim.fin r = pF.sim.fin) ∧
    cancelFinalize pF.sim.fin = pF.sim.fin ∧
    (∀ track : List StageInfo, pF.sim.fin.tick track = pF.sim.fin) :=
  C5_finished_stable eW pF 3 (by decide)

/-- Claim C6: whenever the FinalizationTracker is Draining, cancelFinalize
transitions it back to Running and clears the accumulated reason bitmask; and
when the engine reports the fetch address back inside the executable region,
the per-clock finalization advance does exactly that regardless of the
StageTrack contents. -/
theorem C6_cancelFinalize_draining (t : FinalizationTracker)
    (hd : t.state = FinState.Draining) :
    cancelFinalize t = ⟨FinState.Running, 0⟩ ∧
    ∀ (e : Engine) (c : EngineCore) (track : List StageInfo),
      e.isExecutableAddress c.pc = true →
      advanceFinalization e t c track = ⟨FinState.Running, 0⟩ := by
  constructor
  · simp [cancelFinalize, hd]
  · intro e c track hex
    simp [advanceFinalization, hex, cancelFinalize, hd, FinalizationTracker.tick]

/-- Witness for C6 at the concrete Draining tracker tD and engine eW. -/
theorem C6_cancelFinalize_draining_witness :
    cancelFinalize tD = ⟨FinState.Running, 0⟩ ∧
    advanceFinalization eW tD ⟨[], [], 0⟩ [⟨0, true, StageInfo.State.None⟩] =
      ⟨FinState.Running, 0⟩ :=
  ⟨(C6_cancelFinalize_draining tD rfl).1,
   (C6_cancelFinalize_draining tD rfl).2 eW ⟨[], [], 0⟩
     [⟨0, true, StageInfo.State.None⟩] rfl⟩

/-- Claim C7: reset is idempotent and, from any state, clears the HistoryLog,
installs the all-Unused StageTrack, resets the FinalizationTracker to
not-finalizing, restores the program counter to its configured initial value
(including a value just configured through setPCInitialValue), and emits the
reset notification exactly when signal emission is enabled. -/
theorem C7_reset_idempotent (e : Engine) (p : Processor) (a : Nat) :
    (resetProcessor e (resetProcessor e p).1).1 = (resetProcessor e p).1 ∧
    (resetProcessor e p).1.history = [] ∧
    (resetProcessor e p).1.sim.stageTrack = List.replicate e.stageCount unusedStage ∧
    (resetProcessor e p).1.sim.fin = FinalizationTracker.initial ∧
    (resetProcessor e p).1.sim.core.pc = p.pcInitialValue ∧
    (resetProcessor e (setPCInitialValue p a)).1.sim.core.pc = a ∧
    (resetProcessor e p).2 = emitIf p.m_emitsSignals SignalKind.processorWasReset :=
  ⟨rfl, rfl, rfl, rfl, rfl, rfl, rfl⟩

/-- Claim C8: stage-state queries (stateOf, stageInfo, getPcForStage) fail
with OutOfRange exactly for stage indices at or beyond the declared stage
count, and succeed for every index below it. -/
theorem C8_stage_bounds (e : Engine) (p : Processor) (i : Nat)
    (hlen : p.sim.stageTrack.length = e.stageCount) :
    (e.stageCount ≤ i →
      stateOf p.sim.stageTrack i = Except.error RipesError.OutOfRange ∧
      stageInfo p i = Except.error RipesError.OutOfRange ∧
      getPcForStage p i = Except.error RipesError.OutOfRange) ∧
    (i < e.stageCount →
      ∃ s, p.sim.stageTrack[i]? = some s ∧
        stageInfo p i = Except.ok s ∧ getPcForStage p i = Except.ok s.pc) := by
  constructor
  · intro hge
    have hnone : p.sim.stageTrack[i]? = none := List.getElem?_eq_none (by omega)
    refine ⟨?_, ?_, ?_⟩ <;> simp [stateOf, stageInfo, getPcForStage, Except.map, hnone]
  · intro hlt
    have hi : i < p.sim.stageTrack.length := by omega
    refine ⟨p.sim.stageTrack[i], List.getElem?_eq_getElem hi, ?_, ?_⟩ <;>
      simp [stateOf, stageInfo, getPcForStage, Except.map, List.getElem?_eq_getElem hi]

/-- Witness for C8 at the concrete engine eW (two stages) and processor pW,
with the out-of-range index 5 and the in-range index 0. -/
theorem C8_stage_bounds_witness :
    (stateOf pW.sim.stageTrack 5 = Except.error RipesError.OutOfRange ∧
      stageInfo pW 5 = Except.error RipesError.OutOfRange ∧
      getPcForStage pW 5 = Except.error RipesError.OutOfRange) ∧
    (∃ s, pW.sim.stageTrack[0]? = some s ∧
      stageInfo pW 0 = Except.ok s ∧ getPcForStage pW 0 = Except.ok s.pc) :=
  ⟨(C8_stage_bounds eW pW 5 rfl).1 (by decide),
   (C8_stage_bounds eW pW 0 rfl).2 (by decide)⟩

/-- Claim C9: the StageTrack length (of the live track and of every recorded
history snapshot) equals the stage count declared by the engine configuration,
and this is preserved by clock, reverse and reset; the track is never
resized. -/
theorem C9_stageTrack_length (e : Engine) (p : Processor) (hinv : trackLenInv e p) :
    trackLenInv e (clockProcessor e p).1 ∧
    trackLenInv e (reverseProcessor p).proc ∧
    trackLenInv e (resetProcessor e p).1 := by
  obtain ⟨hlive, hhist⟩ := hinv
  refine ⟨⟨?_, ?_⟩, ?_, ⟨?_, ?_⟩⟩
  · show (recomputeStageTrack e (e.advanceOneCycle p.sim.core)).length = e.stageCount
    simp [recomputeStageTrack]
  · intro s hs
    cases hrev : p.isReversible with
    | true =>
      rw [clock_history_of_reversible e p hrev] at hs
      rcases List.mem_cons.mp (List.mem_of_mem_take hs) with rfl | hmem
      · exact hlive
      · exact hhist s hmem
    | false =>
      have hsame : (clockProcessor e p).1.history = p.history := by
        simp [clockProcessor, hrev]
      rw [hsame] at hs
      exact hhist s hs
  · cases hrev : p.isReversible with
    | false =>
      have hsame : (reverseProcessor p).proc = p := by simp [reverseProcessor, hrev]
      rw [hsame]
      exact ⟨hlive, hhist⟩
    | true =>
      cases hh : p.history with
      | nil =>
        have hsame : (reverseProcessor p).proc = p := by
          simp [reverseProcessor, hrev, hh]
        rw [hsame]
        exact ⟨hlive, hhist⟩
      | cons a t =>
        have hres : (reverseProcessor p).proc = { p with sim := a, history := t } := by
          simp [reverseProcessor, hrev, hh]
        rw [hres]
        constructor
        · exact hhist a (by rw [hh]; exact List.mem_cons_self a t)
        · intro s hs
          exact hhist s (by rw [hh]; exact List.mem_cons_of_mem a hs)
  · show (List.replicate e.stageCount unusedStage).length = e.stageCount
    simp
  · intro s hs
    cases hs

/-- Witness for C9 at the concrete engine eW and processor pW. -/
theorem C9_stageTrack_length_witness :
    trackLenInv eW (clockProcessor eW pW).1 ∧
    trackLenInv eW (reverseProcessor pW).proc ∧
    trackLenInv eW (resetProcessor eW pW).1 :=
  C9_stageTrack_length eW pW ⟨rfl, by simp [pW]⟩

/-- Claim C10: each of clock, reverse and reset emits its notification signal
at the end of the operation exactly when m_emitsSignals is set (and a failed
reverse emits nothing), while the state change itself is unaffected by the
flag. -/
theorem C10_signal_emission (e : Engine) (p : Processor) (b : Bool) :
    (clockProcessor e p).2 = emitIf p.m_emitsSignals SignalKind.processorWasClocked ∧
    (reverseProcessor p).signals =
      (if (reverseProcessor p).error = none then
        emitIf p.m_emitsSignals SignalKind.processorWasReversed else []) ∧
    (resetProcessor e p).2 = emitIf p.m_emitsSignals SignalKind.processorWasReset ∧
    (∀ s : SignalKind, emitIf false s = [] ∧ emitIf true s = [s]) ∧
    (clockProcessor e { p with m_emitsSignals := b }).1 =
      { (clockProcessor e p).1 with m_emitsSignals := b } ∧
    (reverseProcessor { p with m_emitsSignals := b }).proc =
      { (reverseProcessor p).proc with m_emitsSignals := b } ∧
    (resetProcessor e { p with m_emitsSignals := b }).1 =
      { (resetProcessor e p).1 with m_emitsSignals := b } := by
  refine ⟨rfl, ?_, rfl, fun s => ⟨rfl, rfl⟩, rfl, ?_, rfl⟩
  · cases hrev : p.isReversible with
    | false => simp [reverseProcessor, hrev]
    | true =>
      cases hh : p.history with
      | nil => simp [reverseProcessor, hrev, hh]
      | cons a t => simp [reverseProcessor, hrev, hh]
  · cases hrev : p.isReversible with
    | false =>
      have h0 : p.m_features &&& Features.isReversible = 0 := by
        simpa [Processor.isReversible] using hrev
      simp [reverseProcessor, Processor.isReversible, h0]
    | true =>
      have h0 : p.m_features &&& Features.isReversible ≠ 0 := by
        simpa [Processor.isReversible] using hrev
      cases hh : p.history with
      | nil => simp [reverseProcessor, Processor.isReversible, h0, hh]
      | cons a t => simp [reverseProcessor, Processor.isReversible, h0, hh]

end Ripes
